import Mathlib

/-!
# Verification of the gallade dependency-resolution core

A shallow embedding, in Lean 4, of the core of the `gallade` package manager
(Rust), together with theorems checking its natural-language specification
against the code.

Conventions of the embedding:

* Rust `u32` is modelled as `Nat` with an explicit bound `< 2^32` where the
  source performs a bounds check (integer parsing); arithmetic that cannot
  overflow is plain `Nat` arithmetic.
* Rust `&str` / `String` values that the source inspects character by
  character are modelled as `List Char` (a Lean `String` is definitionally a
  list of characters; `String.data` projects it).  Rust compares `String`s by
  UTF-8 byte order, which coincides with code-point lexicographic order, so
  the string order is modelled as lexicographic order on code points.
* `HashMap` / `HashSet` are modelled as association lists / lists with
  insert-if-absent; only lookups and membership are observed by the code.
* Fallible Rust functions returning `Result` are modelled with `Except` /
  `Option`.
* Recursion that the source terminates through a `visited` set or by walking
  a path upward is given explicit fuel; callers pass fuel strictly larger
  than the relevant size so the fuel branch is never reached on the inputs of
  the theorems.
-/

/-! ## Character-list utilities (Rust `str` operations) -/

/-- Three-way comparison on `Nat` (Rust `u32::cmp`). -/
def natCmp (a b : Nat) : Ordering :=
  if a < b then .lt else if b < a then .gt else .eq

/-- Comparison of characters by code point (Rust compares strings by UTF-8
bytes; on whole characters this is code-point order). -/
def charCmp (a b : Char) : Ordering :=
  natCmp a.toNat b.toNat

/-- Lexicographic comparison of character lists (Rust `str::cmp`). -/
def listCmp : List Char → List Char → Ordering
  | [], [] => .eq
  | [], _ :: _ => .lt
  | _ :: _, [] => .gt
  | x :: xs, y :: ys =>
    match charCmp x y with
    | .eq => listCmp xs ys
    | o => o

/-- Rust `str::split_once(sep)`: split at the first occurrence of `sep`,
`none` when `sep` does not occur. -/
def splitOnce (sep : Char) : List Char → Option (List Char × List Char)
  | [] => none
  | c :: cs =>
    if c = sep then some ([], cs)
    else
      match splitOnce sep cs with
      | some (l, r) => some (c :: l, r)
      | none => none

/-- Rust `str::split(sep)` collected to a list: always yields at least one
(possibly empty) field; `"a.b"` gives `["a","b"]`, `""` gives `[""]`. -/
def splitSep (sep : Char) : List Char → List (List Char)
  | [] => [[]]
  | c :: cs =>
    if c = sep then [] :: splitSep sep cs
    else
      match splitSep sep cs with
      | [] => [[c]]
      | l :: ls => (c :: l) :: ls

/-- Numeric value of an ASCII digit. -/
def digitVal (c : Char) : Option Nat :=
  if '0' ≤ c ∧ c ≤ '9' then some (c.toNat - 48) else none

/-- Accumulate decimal digits; fails on the first non-digit. -/
def parseDigits : Nat → List Char → Option Nat
  | acc, [] => some acc
  | acc, c :: cs =>
    match digitVal c with
    | some d => parseDigits (acc * 10 + d) cs
    | none => none

/-- Rust `u32::from_str`: an optional leading `+`, then at least one decimal
digit, value below `2^32`. -/
def parseU32 (cs : List Char) : Option Nat :=
  let body :=
    match cs with
    | '+' :: rest => rest
    | _ => cs
  match body with
  | [] => none
  | _ =>
    match parseDigits 0 body with
    | some n => if n < 4294967296 then some n else none
    | none => none

/-- ASCII whitespace test (model of the whitespace class used by
`str::trim` on the ASCII inputs the program handles). -/
def isAsciiWs (c : Char) : Bool :=
  c == ' ' || c == '\t' || c == '\n' || c == '\r'

/-- Rust `str::trim` on character lists. -/
def trimChars (cs : List Char) : List Char :=
  ((cs.dropWhile fun c => isAsciiWs c).reverse.dropWhile fun c => isAsciiWs c).reverse

/-- ASCII uppercase (model of `str::to_uppercase` on the ASCII inputs the
program compares against `"LATEST"` / `"RELEASE"`). -/
def upChar (c : Char) : Char :=
  if 'a' ≤ c ∧ c ≤ 'z' then Char.ofNat (c.toNat - 32) else c

/-! ## `src/version.rs`: `MavenVersion` -/

/-- `MavenVersion` from `src/version.rs`: numeric triple plus optional
qualifier (the substring after the first `-`). -/
structure MavenVersion where
  major : Nat
  minor : Nat
  patch : Nat
  qualifier : Option String
deriving DecidableEq, Repr

/-- `VersionParseError` from `src/version.rs`.  The `ParseIntError` payload of
`InvalidNumber` is dropped (never inspected by the program). -/
inductive VersionParseError where
  | InvalidFormat
  | InvalidNumber
deriving DecidableEq, Repr

/-- The part of the input before the first `-` (the whole input when there is
no `-`); mirrors the `split_once('-')` destructuring in `FromStr`. -/
def versionPartOf (cs : List Char) : List Char :=
  match splitOnce '-' cs with
  | some p => p.1
  | none => cs

/-- The qualifier: substring after the first `-`, when present. -/
def qualifierOf (cs : List Char) : Option String :=
  match splitOnce '-' cs with
  | some p => some (String.mk p.2)
  | none => none

/-- One numeric field: `nums[i].parse().map_err(InvalidNumber)`. -/
def parseField (cs : List Char) : Except VersionParseError Nat :=
  match parseU32 cs with
  | some n => .ok n
  | none => .error .InvalidNumber

/-- `impl FromStr for MavenVersion` (src/version.rs lines 37-72), on the
character list of the input. -/
def MavenVersion.fromChars (cs : List Char) : Except VersionParseError MavenVersion :=
  let qualifier := qualifierOf cs
  let nums := splitSep '.' (versionPartOf cs)
  match nums with
  | [a, b, c] =>
    match parseField a with
    | .error e => .error e
    | .ok ma =>
      match parseField b with
      | .error e => .error e
      | .ok mb =>
        match parseField c with
        | .error e => .error e
        | .ok mc => .ok ⟨ma, mb, mc, qualifier⟩
  | [a, b] =>
    match parseField a with
    | .error e => .error e
    | .ok ma =>
      match parseField b with
      | .error e => .error e
      | .ok mb => .ok ⟨ma, mb, 0, qualifier⟩
  | [a] =>
    match parseField a with
    | .error e => .error e
    | .ok ma => .ok ⟨ma, 0, 0, qualifier⟩
  | _ => .error .InvalidFormat

/-- `"string".parse::<MavenVersion>()`. -/
def MavenVersion.fromStr (s : String) : Except VersionParseError MavenVersion :=
  MavenVersion.fromChars s.data

/-- Comparison of the optional qualifiers, exactly the final `match` of
`impl Ord for MavenVersion`: absence outranks presence, two present
qualifiers compare as strings. -/
def qualCmp : Option String → Option String → Ordering
  | none, none => .eq
  | some _, none => .lt
  | none, some _ => .gt
  | some a, some b => listCmp a.data b.data

/-- `impl Ord for MavenVersion` (src/version.rs lines 98-120). -/
def mvCmp (v w : MavenVersion) : Ordering :=
  match natCmp v.major w.major with
  | .eq =>
    match natCmp v.minor w.minor with
    | .eq =>
      match natCmp v.patch w.patch with
      | .eq => qualCmp v.qualifier w.qualifier
      | o => o
    | o => o
  | o => o

/-- `v <= w` as the derived comparison operators use it. -/
def mvLe (v w : MavenVersion) : Bool :=
  match mvCmp v w with
  | .gt => false
  | _ => true

/-- `v < w`. -/
def mvLt (v w : MavenVersion) : Bool :=
  match mvCmp v w with
  | .lt => true
  | _ => false

/-! ## `src/version.rs`: `VersionReq` -/

/-- `VersionReq` from `src/version.rs`. -/
inductive VersionReq where
  | Exact (v : MavenVersion)
  | Range (min : Option MavenVersion) (min_inclusive : Bool)
          (max : Option MavenVersion) (max_inclusive : Bool)
  | Latest
  | Release
deriving DecidableEq, Repr

/-- `VersionReq::matches` (src/version.rs lines 186-208).  Note the source
returns `true` for both `Latest` and `Release` on every version. -/
def VersionReq.matches (r : VersionReq) (version : MavenVersion) : Bool :=
  match r with
  | .Exact req => decide (req = version)
  | .Range min minInc max maxInc =>
    let meetsMin :=
      match min, minInc with
      | none, _ => true
      | some m, true => mvLe m version
      | some m, false => mvLt m version
    let meetsMax :=
      match max, maxInc with
      | none, _ => true
      | some m, true => mvLe version m
      | some m, false => mvLt version m
    meetsMin && meetsMax
  | .Latest => true
  | .Release => true

/-- One range bound: empty after trim means unbounded, otherwise a version
that must parse (`parts[i].trim().parse()?`). -/
def parseBound (cs : List Char) : Except String (Option MavenVersion) :=
  if trimChars cs = [] then .ok none
  else
    match MavenVersion.fromChars (trimChars cs) with
    | .ok v => .ok (some v)
    | .error _ => .error "invalid version in range"

/-- `VersionReq::parse` (src/version.rs lines 137-184), on the character list
of the input.  Errors are collapsed to message strings (the source uses
`anyhow`). -/
def VersionReq.parseChars (input : List Char) : Except String VersionReq :=
  let up := (trimChars input).map upChar
  if up = "LATEST".data then .ok .Latest
  else if up = "RELEASE".data then .ok .Release
  else if input.head? = some '[' ∨ input.head? = some '(' then
    if input.getLast? = some ']' ∨ input.getLast? = some ')' then
      let minInc := input.head? = some '['
      let maxInc := input.getLast? = some ']'
      let content := (input.drop 1).dropLast
      match splitSep ',' content with
      | [p1, p2] =>
        match parseBound p1 with
        | .error e => .error e
        | .ok min =>
          match parseBound p2 with
          | .error e => .error e
          | .ok max => .ok (.Range min minInc max maxInc)
      | _ => .error "invalid range format: expected two versions separated by comma"
    else .error "invalid range format: missing closing bracket"
  else
    match MavenVersion.fromChars input with
    | .ok v => .ok (.Exact v)
    | .error _ => .error "invalid version"

/-- `VersionReq::parse` on a `String`. -/
def VersionReq.parse (s : String) : Except String VersionReq :=
  VersionReq.parseChars s.data

/-! ## `src/coordinates.rs`: `Coordinate`

The Rust field `namespace` is a Lean keyword; it is called `ns` here. -/

/-- `Coordinate` from `src/coordinates.rs`. -/
structure Coordinate where
  ns : String
  name : String
  version : Option String
deriving DecidableEq, Repr

/-- `Coordinate::parse`: split on `:`, two or three parts. -/
def Coordinate.parse (s : String) : Except String Coordinate :=
  match (splitSep ':' s.data).map String.mk with
  | [a, b] => .ok ⟨a, b, none⟩
  | [a, b, c] => .ok ⟨a, b, some c⟩
  | _ => .error "invalid coordinate format - expected namespace:name[:version]"

/-- `impl Display for Coordinate`: colon-joined. -/
def Coordinate.toString (c : Coordinate) : String :=
  match c.version with
  | some v => c.ns ++ ":" ++ c.name ++ ":" ++ v
  | none => c.ns ++ ":" ++ c.name

/-- `Coordinate::to_path` as a list of path segments: the namespace split on
`.`, then the name. -/
def Coordinate.pathSegs (c : Coordinate) : List String :=
  (splitSep '.' c.ns.data).map String.mk ++ [c.name]

/-! ## `src/lockfile.rs`: `Lockfile` data model -/

/-- `PackageInfo` from `src/lockfile.rs`. -/
structure PackageInfo where
  version : String
  repository : String
  integrity : String
  deps : List String
deriving DecidableEq, Repr

/-- `Lockfile` from `src/lockfile.rs`.  The `HashMap<String, PackageInfo>` is
modelled as an association list; the code observes it only through key
lookup, key removal and iteration. -/
structure Lockfile where
  version : Nat
  deps : List (String × PackageInfo)
deriving DecidableEq, Repr

/-- `lockfile.deps.get(key)`. -/
def Lockfile.get (lf : Lockfile) (key : String) : Option PackageInfo :=
  lf.deps.lookup key

/-- `lockfile.deps.remove(key)`. -/
def Lockfile.removeKey (lf : Lockfile) (key : String) : Lockfile :=
  { lf with deps := lf.deps.filter fun e => decide (e.1 ≠ key) }

/-! ## `src/prune.rs`: `DependencyPruner` -/

/-- `DependencyPruner` from `src/prune.rs`.  All three `HashSet`s are
modelled as lists observed through membership.  Note: the source holds ONE
`visited` set in the struct, shared by every `mark_tree` call made on the
same pruner; nothing ever resets it. -/
structure DependencyPruner where
  marked_from_removed : List Coordinate
  marked_from_remaining : List Coordinate
  visited : List Coordinate
deriving DecidableEq, Repr

/-- The freshly constructed pruner (`DependencyPruner::new`). -/
def DependencyPruner.new : DependencyPruner := ⟨[], [], []⟩

/-- `DependencyPruner::mark_tree` (src/prune.rs lines 22-40): DFS over
`PackageInfo.deps` edges, early-returning on coordinates already in the
struct-level `visited` set.  The source terminates through `visited`; here
the recursion carries fuel, and every theorem below applies it with fuel
strictly larger than the number of coordinates involved, so the fuel branch
is never taken. -/
def DependencyPruner.markTree :
    Nat → DependencyPruner → Coordinate → Lockfile → Bool → DependencyPruner
  | 0, st, _, _, _ => st
  | fuel + 1, st, coord, lf, forRemoved =>
    if coord ∈ st.visited then st
    else
      let st := { st with visited := coord :: st.visited }
      let st :=
        if forRemoved then
          { st with marked_from_removed := coord :: st.marked_from_removed }
        else
          { st with marked_from_remaining := coord :: st.marked_from_remaining }
      match lf.get coord.toString with
      | none => st
      | some pkg =>
        pkg.deps.foldl
          (fun st depStr =>
            match Coordinate.parse depStr with
            | .ok dep => DependencyPruner.markTree fuel st dep lf forRemoved
            | .error _ => st)
          st

/-- `DependencyPruner::get_removable`: `marked_from_removed` minus
`marked_from_remaining`. -/
def DependencyPruner.getRemovable (st : DependencyPruner) : List Coordinate :=
  st.marked_from_removed.filter fun c => decide (c ∉ st.marked_from_remaining)

/-- `DependencyResolver::remove` (src/resolver.rs lines 247-269).  Faithful
to the source, including the two slips this development exhibits: the
retained-pass loop calls `mark_tree(&coord, ..)` with the REMOVED coordinate
(the bound variable `c` is compared against `coord` but never passed), and
the pruner's `visited` set persists across the passes. -/
def DependencyResolver.remove (fuel : Nat) (coord : Coordinate) (lf : Lockfile) : Lockfile :=
  let pruner := DependencyPruner.new
  let pruner := pruner.markTree fuel coord lf true
  let pruner :=
    lf.deps.foldl
      (fun pr entry =>
        match Coordinate.parse entry.1 with
        | .ok c => if c ≠ coord then pr.markTree fuel coord lf false else pr
        | .error _ => pr)
      pruner
  let lf := lf.removeKey coord.toString
  let toRemove := pruner.getRemovable
  { lf with deps := lf.deps.filter fun e => decide (e.1 ∉ toRemove.map Coordinate.toString) }

/-! ## Order lemmas for `mvCmp` -/

theorem natCmp_lt_iff (a b : Nat) : natCmp a b = .lt ↔ a < b := by
  unfold natCmp
  by_cases h1 : a < b
  · simp [h1]
  · by_cases h2 : b < a <;> simp [h1, h2]

theorem natCmp_eq_iff (a b : Nat) : natCmp a b = .eq ↔ a = b := by
  unfold natCmp
  by_cases h1 : a < b
  · simp [h1]; omega
  · by_cases h2 : b < a <;> simp [h1, h2] <;> omega

theorem natCmp_gt_iff (a b : Nat) : natCmp a b = .gt ↔ b < a := by
  unfold natCmp
  by_cases h1 : a < b
  · simp [h1]; omega
  · by_cases h2 : b < a <;> simp [h1, h2]

theorem natCmp_swap (a b : Nat) : natCmp b a = (natCmp a b).swap := by
  unfold natCmp
  by_cases h1 : a < b <;> by_cases h2 : b < a <;>
    · simp [h1, h2, Ordering.swap]
      try omega

theorem charCmp_eq_iff (a b : Char) : charCmp a b = .eq ↔ a = b := by
  unfold charCmp
  rw [natCmp_eq_iff]
  constructor
  · intro h; exact Char.eq_of_val_eq (UInt32.ext h)
  · intro h; rw [h]

theorem charCmp_swap (a b : Char) : charCmp b a = (charCmp a b).swap := by
  unfold charCmp; exact natCmp_swap _ _

theorem charCmp_lt_trans {a b c : Char} :
    charCmp a b = .lt → charCmp b c = .lt → charCmp a c = .lt := by
  unfold charCmp
  rw [natCmp_lt_iff, natCmp_lt_iff, natCmp_lt_iff]
  omega

theorem listCmp_eq_iff : ∀ xs ys : List Char, listCmp xs ys = .eq ↔ xs = ys
  | [], [] => by simp [listCmp]
  | [], _ :: _ => by simp [listCmp]
  | _ :: _, [] => by simp [listCmp]
  | x :: xs, y :: ys => by
    simp only [listCmp]
    cases h : charCmp x y
    · simp only []
      constructor
      · intro hc; cases hc
      · intro hc
        have hx : x = y := (List.cons.injEq .. ▸ hc).1
        rw [hx] at h
        rw [(charCmp_eq_iff y y).mpr rfl] at h
        cases h
    · rw [listCmp_eq_iff xs ys]
      have hx : x = y := (charCmp_eq_iff x y).mp h
      subst hx
      simp
    · simp only []
      constructor
      · intro hc; cases hc
      · intro hc
        have hx : x = y := (List.cons.injEq .. ▸ hc).1
        rw [hx] at h
        rw [(charCmp_eq_iff y y).mpr rfl] at h
        cases h

theorem listCmp_swap : ∀ xs ys : List Char, listCmp ys xs = (listCmp xs ys).swap
  | [], [] => by simp [listCmp, Ordering.swap]
  | [], _ :: _ => by simp [listCmp, Ordering.swap]
  | _ :: _, [] => by simp [listCmp, Ordering.swap]
  | x :: xs, y :: ys => by
    simp only [listCmp]
    cases h : charCmp x y <;>
      rw [charCmp_swap x y, h] <;>
      simp [Ordering.swap, listCmp_swap xs ys]

theorem listCmp_lt_trans :
    ∀ {xs ys zs : List Char}, listCmp xs ys = .lt → listCmp ys zs = .lt → listCmp xs zs = .lt
  | [], [], _, h1, _ => by cases h1
  | [], _ :: _, [], _, h2 => by cases h2
  | [], _ :: _, _ :: _, _, _ => by simp [listCmp]
  | _ :: _, [], _, h1, _ => by cases h1
  | _ :: _, _ :: _, [], _, h2 => by cases h2
  | x :: xs, y :: ys, z :: zs, h1, h2 => by
    simp only [listCmp] at h1 h2 ⊢
    cases hxy : charCmp x y <;> rw [hxy] at h1
    case lt =>
      cases hyz : charCmp y z <;> rw [hyz] at h2
      case lt => rw [charCmp_lt_trans hxy hyz]
      case eq =>
        have hy : y = z := (charCmp_eq_iff y z).mp hyz
        subst hy
        rw [hxy]
      case gt => exact Ordering.noConfusion h2
    case eq =>
      have hx : x = y := (charCmp_eq_iff x y).mp hxy
      subst hx
      cases hyz : charCmp x z <;> rw [hyz] at h2
      case eq => exact listCmp_lt_trans h1 h2
      case gt => exact Ordering.noConfusion h2
    case gt => exact Ordering.noConfusion h1

theorem qualCmp_eq_iff (a b : Option String) : qualCmp a b = .eq ↔ a = b := by
  cases a <;> cases b <;> simp [qualCmp]
  rename_i sa sb
  rw [listCmp_eq_iff]
  constructor
  · intro h; exact String.ext h
  · intro h; rw [h]

theorem qualCmp_swap (a b : Option String) : qualCmp b a = (qualCmp a b).swap := by
  cases a <;> cases b <;> simp [qualCmp, Ordering.swap]
  exact listCmp_swap _ _

theorem qualCmp_lt_trans {a b c : Option String} :
    qualCmp a b = .lt → qualCmp b c = .lt → qualCmp a c = .lt := by
  cases a <;> cases b <;> cases c <;> simp [qualCmp]
  exact fun h1 h2 => listCmp_lt_trans h1 h2

theorem mvCmp_eq_iff (v w : MavenVersion) : mvCmp v w = .eq ↔ v = w := by
  obtain ⟨a1, b1, c1, q1⟩ := v
  obtain ⟨a2, b2, c2, q2⟩ := w
  simp only [mvCmp, MavenVersion.mk.injEq]
  cases h1 : natCmp a1 a2
  case lt =>
    have ha := (natCmp_lt_iff a1 a2).mp h1
    constructor
    · intro h; exact Ordering.noConfusion h
    · rintro ⟨e, -⟩; exact absurd e (by omega)
  case gt =>
    have ha := (natCmp_gt_iff a1 a2).mp h1
    constructor
    · intro h; exact Ordering.noConfusion h
    · rintro ⟨e, -⟩; exact absurd e (by omega)
  case eq =>
    have ha := (natCmp_eq_iff a1 a2).mp h1
    subst ha
    cases h2 : natCmp b1 b2
    case lt =>
      have hb := (natCmp_lt_iff b1 b2).mp h2
      constructor
      · intro h; exact Ordering.noConfusion h
      · rintro ⟨-, e, -⟩; exact absurd e (by omega)
    case gt =>
      have hb := (natCmp_gt_iff b1 b2).mp h2
      constructor
      · intro h; exact Ordering.noConfusion h
      · rintro ⟨-, e, -⟩; exact absurd e (by omega)
    case eq =>
      have hb := (natCmp_eq_iff b1 b2).mp h2
      subst hb
      cases h3 : natCmp c1 c2
      case lt =>
        have hc := (natCmp_lt_iff c1 c2).mp h3
        constructor
        · intro h; exact Ordering.noConfusion h
        · rintro ⟨-, -, e, -⟩; exact absurd e (by omega)
      case gt =>
        have hc := (natCmp_gt_iff c1 c2).mp h3
        constructor
        · intro h; exact Ordering.noConfusion h
        · rintro ⟨-, -, e, -⟩; exact absurd e (by omega)
      case eq =>
        have hc := (natCmp_eq_iff c1 c2).mp h3
        subst hc
        simp [qualCmp_eq_iff]

theorem mvCmp_lt_iff (v w : MavenVersion) :
    mvCmp v w = .lt ↔
      v.major < w.major ∨
        (v.major = w.major ∧
          (v.minor < w.minor ∨
            (v.minor = w.minor ∧
              (v.patch < w.patch ∨
                (v.patch = w.patch ∧ qualCmp v.qualifier w.qualifier = .lt))))) := by
  obtain ⟨a1, b1, c1, q1⟩ := v
  obtain ⟨a2, b2, c2, q2⟩ := w
  simp only [mvCmp]
  cases h1 : natCmp a1 a2
  case lt =>
    have ha := (natCmp_lt_iff a1 a2).mp h1
    constructor
    · intro _; exact Or.inl ha
    · intro _; rfl
  case gt =>
    have ha := (natCmp_gt_iff a1 a2).mp h1
    constructor
    · intro h; exact Ordering.noConfusion h
    · rintro (h | ⟨e, -⟩) <;> exact absurd ha (by omega)
  case eq =>
    have ha := (natCmp_eq_iff a1 a2).mp h1
    subst ha
    cases h2 : natCmp b1 b2
    case lt =>
      have hb := (natCmp_lt_iff b1 b2).mp h2
      constructor
      · intro _; exact Or.inr ⟨rfl, Or.inl hb⟩
      · intro _; rfl
    case gt =>
      have hb := (natCmp_gt_iff b1 b2).mp h2
      constructor
      · intro h; exact Ordering.noConfusion h
      · rintro (h | ⟨-, h | ⟨e, -⟩⟩) <;> exact absurd hb (by omega)
    case eq =>
      have hb := (natCmp_eq_iff b1 b2).mp h2
      subst hb
      cases h3 : natCmp c1 c2
      case lt =>
        have hc := (natCmp_lt_iff c1 c2).mp h3
        constructor
        · intro _; exact Or.inr ⟨rfl, Or.inr ⟨rfl, Or.inl hc⟩⟩
        · intro _; rfl
      case gt =>
        have hc := (natCmp_gt_iff c1 c2).mp h3
        constructor
        · intro h; exact Ordering.noConfusion h
        · rintro (h | ⟨-, h | ⟨-, h | ⟨e, -⟩⟩⟩) <;> exact absurd hc (by omega)
      case eq =>
        have hc := (natCmp_eq_iff c1 c2).mp h3
        subst hc
        simp

theorem mvCmp_swap (v w : MavenVersion) : mvCmp w v = (mvCmp v w).swap := by
  obtain ⟨a1, b1, c1, q1⟩ := v
  obtain ⟨a2, b2, c2, q2⟩ := w
  simp only [mvCmp]
  cases h1 : natCmp a1 a2 <;> rw [natCmp_swap a1 a2, h1] <;>
    simp only [Ordering.swap]
  cases h2 : natCmp b1 b2 <;> rw [natCmp_swap b1 b2, h2] <;>
    simp only [Ordering.swap]
  cases h3 : natCmp c1 c2 <;> rw [natCmp_swap c1 c2, h3] <;>
    simp only [Ordering.swap]
  exact qualCmp_swap q1 q2

theorem mvCmp_lt_trans {u v w : MavenVersion} :
    mvCmp u v = .lt → mvCmp v w = .lt → mvCmp u w = .lt := by
  intro h1 h2
  rw [mvCmp_lt_iff] at h1 h2 ⊢
  rcases h1 with h1 | ⟨e1, h1 | ⟨e2, h1 | ⟨e3, hq1⟩⟩⟩ <;>
    rcases h2 with h2 | ⟨f1, h2 | ⟨f2, h2 | ⟨f3, hq2⟩⟩⟩ <;>
      first
        | exact Or.inl (by omega)
        | exact Or.inr ⟨by omega, Or.inl (by omega)⟩
        | exact Or.inr ⟨by omega, Or.inr ⟨by omega, Or.inl (by omega)⟩⟩
        | exact Or.inr ⟨by omega, Or.inr ⟨by omega, Or.inr
            ⟨by omega, qualCmp_lt_trans hq1 hq2⟩⟩⟩

deriving instance DecidableEq for Except

/-! ## Claim C5: the `MavenVersion` order -/

/-- C5 (confirmed): `mvCmp` — the embedding of `impl Ord for MavenVersion` —
is a total order (transitive, with `.eq` exactly on equal values and the
comparison of swapped arguments the swap of the comparison), is lexicographic
on `(major, minor, patch)` whenever the numeric triples differ, and on equal
triples a version without qualifier is strictly greater than the same
numerics with any qualifier (in particular `parse("1.2.3") > parse("1.2.3-"
++ anything)`), while two present qualifiers compare in ordinary string
order. -/
theorem mavenVersion_order_total :
    (∀ u v w : MavenVersion, mvCmp u v = .lt → mvCmp v w = .lt → mvCmp u w = .lt)
    ∧ (∀ v w : MavenVersion, mvCmp v w = .eq ↔ v = w)
    ∧ (∀ v w : MavenVersion, mvCmp w v = (mvCmp v w).swap)
    ∧ (∀ v w : MavenVersion,
        (v.major, v.minor, v.patch) ≠ (w.major, w.minor, w.patch) →
        mvCmp v w =
          (natCmp v.major w.major).then ((natCmp v.minor w.minor).then (natCmp v.patch w.patch)))
    ∧ (∀ a b c : Nat, ∀ q : String, mvCmp ⟨a, b, c, none⟩ ⟨a, b, c, some q⟩ = .gt)
    ∧ (∀ q r : String, ∀ a b c : Nat,
        mvCmp ⟨a, b, c, some q⟩ ⟨a, b, c, some r⟩ = listCmp q.data r.data)
    ∧ (∀ qs : String,
        MavenVersion.fromStr "1.2.3" = .ok ⟨1, 2, 3, none⟩ ∧
        MavenVersion.fromStr ("1.2.3-" ++ qs) = .ok ⟨1, 2, 3, some qs⟩ ∧
        mvCmp ⟨1, 2, 3, none⟩ ⟨1, 2, 3, some qs⟩ = .gt) := by
  refine ⟨fun u v w => mvCmp_lt_trans, mvCmp_eq_iff, mvCmp_swap, ?_, ?_, ?_, ?_⟩
  · intro v w hne
    obtain ⟨a1, b1, c1, q1⟩ := v
    obtain ⟨a2, b2, c2, q2⟩ := w
    simp only [mvCmp]
    cases h1 : natCmp a1 a2
    case lt => rfl
    case gt => rfl
    case eq =>
      have ha := (natCmp_eq_iff a1 a2).mp h1
      subst ha
      simp only [Ordering.then]
      cases h2 : natCmp b1 b2
      case lt => rfl
      case gt => rfl
      case eq =>
        have hb := (natCmp_eq_iff b1 b2).mp h2
        subst hb
        simp only [Ordering.then]
        cases h3 : natCmp c1 c2
        case lt => rfl
        case gt => rfl
        case eq =>
          have hc := (natCmp_eq_iff c1 c2).mp h3
          subst hc
          exact absurd rfl hne
  · intro a b c q
    simp [mvCmp, (natCmp_eq_iff a a).mpr rfl, (natCmp_eq_iff b b).mpr rfl,
      (natCmp_eq_iff c c).mpr rfl, qualCmp]
  · intro q r a b c
    simp [mvCmp, (natCmp_eq_iff a a).mpr rfl, (natCmp_eq_iff b b).mpr rfl,
      (natCmp_eq_iff c c).mpr rfl, qualCmp]
  · intro qs
    refine ⟨rfl, rfl, ?_⟩
    simp [mvCmp, (natCmp_eq_iff 1 1).mpr rfl, (natCmp_eq_iff 2 2).mpr rfl,
      (natCmp_eq_iff 3 3).mpr rfl, qualCmp]

/-- Witness for C5: the theorem applied at concrete versions — transitivity
at `1.2.3 < 1.2.4 < 1.3.0`, and the release-over-pre-release clause at
qualifier `"alpha"`. -/
theorem mavenVersion_order_total_witness :
    mvCmp ⟨1, 2, 3, none⟩ ⟨1, 3, 0, none⟩ = .lt ∧
    mvCmp ⟨1, 2, 3, none⟩ ⟨1, 2, 3, some "alpha"⟩ = .gt :=
  ⟨mavenVersion_order_total.1 ⟨1, 2, 3, none⟩ ⟨1, 2, 4, none⟩ ⟨1, 3, 0, none⟩
      (by decide) (by decide),
    mavenVersion_order_total.2.2.2.2.1 1 2 3 "alpha"⟩

/-! ## Claim C6: `MavenVersion` parse acceptance and error classes -/

theorem splitSep_ne_nil (sep : Char) : ∀ cs, splitSep sep cs ≠ []
  | [] => by simp [splitSep]
  | c :: cs => by
    simp only [splitSep]
    split
    · simp
    · split <;> simp

/-- C6 counterexample: the claim says every input with an empty component
fails with `InvalidFormat`, but on `"1..2"` — three dot-separated fields of
which the middle one is empty — the code parses `""` as a number and fails
with `InvalidNumber`, a different constructor. -/
theorem mavenVersion_parse_empty_component_counterexample :
    MavenVersion.fromStr "1..2" = .error .InvalidNumber ∧
    VersionParseError.InvalidNumber ≠ VersionParseError.InvalidFormat := by
  refine ⟨?_, by decide⟩
  rfl

/-- C6 (amended): parsing accepts 1–3 dot-separated `u32` fields optionally
followed by `-<qualifier>`; an input with more than 3 dot-separated fields
fails with `InvalidFormat`, while an input of at most 3 fields of which some
field is empty or non-numeric (or overflows `u32`) fails with
`InvalidNumber` — not `InvalidFormat` as the claim stated for empty
components. -/
theorem mavenVersion_parse_error_classes :
    (∀ cs : List Char, 3 < (splitSep '.' (versionPartOf cs)).length →
      MavenVersion.fromChars cs = .error .InvalidFormat)
    ∧ (∀ cs : List Char, (splitSep '.' (versionPartOf cs)).length ≤ 3 →
        (∃ f ∈ splitSep '.' (versionPartOf cs), parseU32 f = none) →
        MavenVersion.fromChars cs = .error .InvalidNumber)
    ∧ (∀ cs : List Char, (splitSep '.' (versionPartOf cs)).length ≤ 3 →
        (∀ f ∈ splitSep '.' (versionPartOf cs), parseU32 f ≠ none) →
        ∃ v, MavenVersion.fromChars cs = .ok v ∧ v.qualifier = qualifierOf cs) := by
  refine ⟨?_, ?_, ?_⟩
  · intro cs hlen
    have hnn := splitSep_ne_nil '.' (versionPartOf cs)
    unfold MavenVersion.fromChars
    generalize hnums : splitSep '.' (versionPartOf cs) = nums at hlen hnn ⊢
    rcases nums with _ | ⟨a, _ | ⟨b, _ | ⟨c, _ | ⟨d, tl⟩⟩⟩⟩ <;>
      (simp at hlen; try rfl)
  · intro cs hlen hex
    have hnn := splitSep_ne_nil '.' (versionPartOf cs)
    unfold MavenVersion.fromChars
    generalize hnums : splitSep '.' (versionPartOf cs) = nums at hlen hnn hex ⊢
    rcases hex with ⟨f, hf, hfn⟩
    rcases nums with _ | ⟨a, _ | ⟨b, _ | ⟨c, _ | ⟨d, tl⟩⟩⟩⟩
    · exact absurd rfl hnn
    · simp only [List.mem_cons, List.not_mem_nil, or_false] at hf
      subst hf
      simp [parseField, hfn]
    · simp only [List.mem_cons, List.not_mem_nil, or_false] at hf
      cases hpa : parseU32 a
      · simp [parseField, hpa]
      · cases hpb : parseU32 b
        · simp [parseField, hpa, hpb]
        · rcases hf with rfl | rfl <;> simp_all
    · simp only [List.mem_cons, List.not_mem_nil, or_false] at hf
      cases hpa : parseU32 a
      · simp [parseField, hpa]
      · cases hpb : parseU32 b
        · simp [parseField, hpa, hpb]
        · cases hpc : parseU32 c
          · simp [parseField, hpa, hpb, hpc]
          · rcases hf with rfl | rfl | rfl <;> simp_all
    · simp at hlen
  · intro cs hlen hall
    have hnn := splitSep_ne_nil '.' (versionPartOf cs)
    unfold MavenVersion.fromChars
    generalize hnums : splitSep '.' (versionPartOf cs) = nums at hlen hnn hall ⊢
    rcases nums with _ | ⟨a, _ | ⟨b, _ | ⟨c, _ | ⟨d, tl⟩⟩⟩⟩
    · exact absurd rfl hnn
    · rcases hpa : parseU32 a with - | na
      · exact absurd hpa (hall a (by simp))
      · exact ⟨⟨na, 0, 0, qualifierOf cs⟩, by simp [parseField, hpa], rfl⟩
    · rcases hpa : parseU32 a with - | na
      · exact absurd hpa (hall a (by simp))
      · rcases hpb : parseU32 b with - | nb
        · exact absurd hpb (hall b (by simp))
        · exact ⟨⟨na, nb, 0, qualifierOf cs⟩, by simp [parseField, hpa, hpb], rfl⟩
    · rcases hpa : parseU32 a with - | na
      · exact absurd hpa (hall a (by simp))
      · rcases hpb : parseU32 b with - | nb
        · exact absurd hpb (hall b (by simp))
        · rcases hpc : parseU32 c with - | nc
          · exact absurd hpc (hall c (by simp))
          · exact ⟨⟨na, nb, nc, qualifierOf cs⟩, by simp [parseField, hpa, hpb, hpc], rfl⟩
    · simp at hlen

/-- Witness for C6: the amended theorem applied at `"1.2.3.4"` (four fields,
`InvalidFormat`), at `"1..2"` (empty middle field, `InvalidNumber`), and at
`"9.4-beta"` (accepted, qualifier `beta`). -/
theorem mavenVersion_parse_error_classes_witness :
    MavenVersion.fromChars "1.2.3.4".data = .error .InvalidFormat ∧
    MavenVersion.fromChars "1..2".data = .error .InvalidNumber ∧
    ∃ v, MavenVersion.fromChars "9.4-beta".data = .ok v ∧
      v.qualifier = qualifierOf "9.4-beta".data :=
  ⟨mavenVersion_parse_error_classes.1 "1.2.3.4".data (by decide),
    mavenVersion_parse_error_classes.2.1 "1..2".data (by decide)
      ⟨"".data, by decide, by decide⟩,
    mavenVersion_parse_error_classes.2.2 "9.4-beta".data (by decide)
      (by decide)⟩

/-! ## `src/resolver.rs`: `DependencyGraph` and the resolver -/

/-- `DependencyRequest` from `src/resolver.rs`. -/
structure DependencyRequest where
  coordinate : Coordinate
  version_req : VersionReq
  scope : Option String
  depth : Nat
deriving DecidableEq, Repr

/-- `DependencyGraph` from `src/resolver.rs`: all three `HashMap`s are
association lists, the edge sets are lists with insert-if-absent. -/
structure DependencyGraph where
  resolved : List (Coordinate × MavenVersion)
  requirements : List (Coordinate × List (VersionReq × Nat))
  edges : List (Coordinate × List Coordinate)
deriving DecidableEq, Repr

/-- `HashMap::insert`: replace the value at the key, append when absent. -/
def upsert {α β : Type} [DecidableEq α] (k : α) (v : β) : List (α × β) → List (α × β)
  | [] => [(k, v)]
  | p :: rest => if p.1 = k then (k, v) :: rest else p :: upsert k v rest

/-- `graph.requirements.entry(coord).or_default().push((req, depth))`. -/
def pushRequirement (coord : Coordinate) (req : VersionReq) (depth : Nat) :
    List (Coordinate × List (VersionReq × Nat)) → List (Coordinate × List (VersionReq × Nat))
  | [] => [(coord, [(req, depth)])]
  | p :: rest =>
    if p.1 = coord then (p.1, p.2 ++ [(req, depth)]) :: rest
    else p :: pushRequirement coord req depth rest

/-- `graph.edges.entry(from).or_default().insert(to)` (a `HashSet` insert). -/
def insertEdge (f t : Coordinate) :
    List (Coordinate × List Coordinate) → List (Coordinate × List Coordinate)
  | [] => [(f, [t])]
  | p :: rest =>
    if p.1 = f then (p.1, if t ∈ p.2 then p.2 else p.2 ++ [t]) :: rest
    else p :: insertEdge f t rest

/-- `DependencyGraph::add_requirement`. -/
def DependencyGraph.add_requirement (g : DependencyGraph) (coord : Coordinate)
    (req : VersionReq) (depth : Nat) : DependencyGraph :=
  { g with requirements := pushRequirement coord req depth g.requirements }

/-- `DependencyGraph::add_edge`. -/
def DependencyGraph.add_edge (g : DependencyGraph) (f t : Coordinate) : DependencyGraph :=
  { g with edges := insertEdge f t g.edges }

/-- `DependencyGraph::add_resolution`. -/
def DependencyGraph.add_resolution (g : DependencyGraph) (coord : Coordinate)
    (version : MavenVersion) : DependencyGraph :=
  { g with resolved := upsert coord version g.resolved }

/-- The head of the requirement list after the stable sort by depth: the
first-inserted requirement among those of minimal depth (Rust
`sort_by_key` is stable, then `sorted_reqs[0]`). -/
def nearestReq : List (VersionReq × Nat) → Option VersionReq
  | [] => none
  | r :: rest => some (rest.foldl (fun best x => if x.2 < best.2 then x else best) r).1

/-- `DependencyGraph::check_version_compatibility` (src/resolver.rs lines
90-101).  Requirement lists stored in the map are always nonempty (entries
are only created by `add_requirement`), so the `none` branch of
`nearestReq` — where the source would index an empty vector — is
unreachable and modelled as `true`. -/
def DependencyGraph.check_version_compatibility (g : DependencyGraph)
    (coord : Coordinate) (version : MavenVersion) : Bool :=
  match g.requirements.lookup coord with
  | some reqs =>
    match nearestReq reqs with
    | some r => r.matches version
    | none => true
  | none => true

/-- Resolution errors (`anyhow` errors in the source, collapsed to the cases
the resolver can produce; `fuelExhausted` is the artefact of the explicit
fuel and is never produced on the fueled inputs used below). -/
inductive ResolveError where
  | versionParse
  | noCompatibleVersion (c : Coordinate)
  | fuelExhausted
deriving DecidableEq, Repr

/-- The candidate scan of src/resolver.rs lines 225-231: walk the version
strings returned by `search_versions` in order, parse each (`v.parse()?` —
a parse failure aborts), and return the first whose parsed version passes
`check_version_compatibility`. -/
def findCompatible (g : DependencyGraph) (coord : Coordinate) :
    List String → Except ResolveError (Option MavenVersion)
  | [] => .ok none
  | s :: rest =>
    match MavenVersion.fromChars s.data with
    | .error _ => .error .versionParse
    | .ok mv =>
      if g.check_version_compatibility coord mv then .ok (some mv)
      else findCompatible g coord rest

/-- The environment a resolver run observes.  `search` models
`RepositoryManager::search_versions` INCLUDING the order in which it
enumerates its `HashSet` union (src/download.rs lines 132-142 collect the
registries' results into a `HashSet` and return its iteration order).
`metadataDeps` models `download_metadata` composed with
`PomParser::parse_dependencies`: the (coordinate, requirement) pairs of the
non-test dependencies, depths assigned by the resolver.  The local store is
elided: with a stable environment the cached and the freshly downloaded
metadata coincide, so it only selects between two paths with the same
value. -/
structure ResolveEnv where
  search : Coordinate → List String
  metadataDeps : Coordinate → MavenVersion → List (Coordinate × VersionReq)

/-- The inner `for dep in deps` loop of `DependencyResolver::resolve`
(src/resolver.rs lines 218-239): record requirement and edge, scan the
search results for the first compatible candidate, record the resolution
and enqueue the child. -/
def processDeps (env : ResolveEnv) (coord : Coordinate) (depth : Nat) :
    List (Coordinate × VersionReq) → DependencyGraph →
    List (Coordinate × MavenVersion × Nat) →
    Except ResolveError (DependencyGraph × List (Coordinate × MavenVersion × Nat))
  | [], g, queue => .ok (g, queue)
  | (dc, dreq) :: rest, g, queue =>
    let g := g.add_requirement dc dreq (depth + 1)
    let g := g.add_edge coord dc
    match findCompatible g dc (env.search dc) with
    | .error e => .error e
    | .ok none => .error (.noCompatibleVersion dc)
    | .ok (some v) =>
      processDeps env coord depth rest (g.add_resolution dc v) (queue ++ [(dc, v, depth + 1)])

/-- The outer BFS loop of `DependencyResolver::resolve` (src/resolver.rs
lines 193-240): FIFO queue of `(coord, version, depth)`, a `seen` set keyed
by coordinate and version. -/
def resolveLoop (env : ResolveEnv) :
    Nat → List (Coordinate × MavenVersion) → List (Coordinate × MavenVersion × Nat) →
    DependencyGraph → Except ResolveError DependencyGraph
  | _, _, [], g => .ok g
  | 0, _, _ :: _, _ => .error .fuelExhausted
  | fuel + 1, seen, (coord, version, depth) :: rest, g =>
    if (coord, version) ∈ seen then resolveLoop env fuel seen rest g
    else
      match processDeps env coord depth (env.metadataDeps coord version) g rest with
      | .error e => .error e
      | .ok (g2, q2) => resolveLoop env fuel ((coord, version) :: seen) q2 g2

/-- `DependencyResolver::resolve` (src/resolver.rs lines 185-245). -/
def DependencyResolver.resolve (env : ResolveEnv) (fuel : Nat) (root : Coordinate)
    (versionStr : String) : Except ResolveError DependencyGraph :=
  match MavenVersion.fromChars versionStr.data with
  | .error _ => .error .versionParse
  | .ok rv =>
    match resolveLoop env fuel [] [(root, rv, 0)] ⟨[], [], []⟩ with
    | .error e => .error e
    | .ok g => .ok (g.add_resolution root rv)

/-! ## Claim C7: `Latest` / `Release` selection -/

/-- A graph carrying a single `Release` requirement for `g:d`, as the
resolver would hold after `add_requirement` on a dependency pinned to
`RELEASE`. -/
def releaseReqGraph : DependencyGraph :=
  ⟨[], [(⟨"g", "d", none⟩, [(VersionReq.Release, 1)])], []⟩

/-- C7 counterexample: the claim says `Release` never matches a
qualifier-bearing version, but `VersionReq::matches` returns `true` for
`Release` on every version — here on `1.2.3-alpha`, which carries a
qualifier; and the resolver's candidate scan under a `Release` requirement
selects the qualifier-bearing `1.0.0-rc1` even though the qualifier-free
`0.9.0` is also offered. -/
theorem release_matches_qualifier_counterexample :
    VersionReq.Release.matches ⟨1, 2, 3, some "alpha"⟩ = true ∧
    (MavenVersion.mk 1 2 3 (some "alpha")).qualifier ≠ none ∧
    findCompatible releaseReqGraph ⟨"g", "d", none⟩ ["1.0.0-rc1", "0.9.0"] =
      .ok (some ⟨1, 0, 0, some "rc1"⟩) ∧
    (MavenVersion.mk 1 0 0 (some "rc1")).qualifier ≠ none ∧
    (MavenVersion.mk 0 9 0 none).qualifier = none := by
  refine ⟨rfl, by decide, ?_, by decide, rfl⟩
  rfl

/-- C7 (amended): `Latest` and `Release` both match every version —
`Release` performs no qualifier filtering — and under either sentinel (or
any passing nearest requirement) the resolver selects the FIRST candidate in
the order `search_versions` returned, not the newest. -/
theorem latest_release_admit_all :
    (∀ v : MavenVersion, VersionReq.Latest.matches v = true)
    ∧ (∀ v : MavenVersion, VersionReq.Release.matches v = true)
    ∧ (∀ (g : DependencyGraph) (c : Coordinate) (s : String) (rest : List String)
        (mv : MavenVersion), MavenVersion.fromChars s.data = .ok mv →
        g.check_version_compatibility c mv = true →
        findCompatible g c (s :: rest) = .ok (some mv)) := by
  refine ⟨fun v => rfl, fun v => rfl, ?_⟩
  intro g c s rest mv hp hc
  simp [findCompatible, hp, hc]

/-- Witness for C7: the head-selection clause applied at a concrete graph
with a `Release` requirement and the candidate list `["1.0.0-rc1"]`. -/
theorem latest_release_admit_all_witness :
    findCompatible releaseReqGraph ⟨"g", "d", none⟩ ["1.0.0-rc1"] =
      .ok (some ⟨1, 0, 0, some "rc1"⟩) :=
  latest_release_admit_all.2.2 releaseReqGraph ⟨"g", "d", none⟩ "1.0.0-rc1" []
    ⟨1, 0, 0, some "rc1"⟩ rfl rfl

/-! ## Claim C8: determinism of `resolve` across runs -/

/-- Root coordinate of the C8 scenario. -/
def c8Root : Coordinate := ⟨"g", "r", none⟩

/-- Dependency coordinate of the C8 scenario. -/
def c8Dep : Coordinate := ⟨"g", "d", none⟩

/-- Stable metadata: the root depends on `g:d` with requirement `[1.0,)`;
`g:d` has no dependencies. -/
def c8Meta : Coordinate → MavenVersion → List (Coordinate × VersionReq) :=
  fun c _ =>
    if c = c8Root then [(c8Dep, .Range (some ⟨1, 0, 0, none⟩) true none false)] else []

/-- A run whose `search_versions` `HashSet` enumerates `{1.0.0, 2.0.0}` as
`[2.0.0, 1.0.0]`. -/
def c8EnvA : ResolveEnv :=
  ⟨fun c => if c = c8Dep then ["2.0.0", "1.0.0"] else [], c8Meta⟩

/-- The same registry contents enumerated in the other order, as a second
run's freshly seeded `HashSet` may. -/
def c8EnvB : ResolveEnv :=
  ⟨fun c => if c = c8Dep then ["1.0.0", "2.0.0"] else [], c8Meta⟩

/-- C8 counterexample: two runs over identical registry CONTENTS (the search
results are permutations of one another, the metadata oracle is the same
function) resolve `g:d` to different versions, because
`RepositoryManager::search_versions` returns `HashSet` iteration order and
the resolver takes the first compatible candidate; the `resolved` map is
therefore not a function of the input alone. -/
theorem resolve_hashset_order_counterexample :
    List.Perm (c8EnvA.search c8Dep) (c8EnvB.search c8Dep)
    ∧ c8EnvA.metadataDeps = c8EnvB.metadataDeps
    ∧ (DependencyResolver.resolve c8EnvA 10 c8Root "1.0.0").map
        (fun g => g.resolved.lookup c8Dep) = .ok (some ⟨2, 0, 0, none⟩)
    ∧ (DependencyResolver.resolve c8EnvB 10 c8Root "1.0.0").map
        (fun g => g.resolved.lookup c8Dep) = .ok (some ⟨1, 0, 0, none⟩)
    ∧ (MavenVersion.mk 2 0 0 none) ≠ ⟨1, 0, 0, none⟩ := by
  refine ⟨by decide, rfl, ?_, ?_, by decide⟩ <;> rfl

/-- C8 (amended): the `DependencyGraph` is a function of the input TOGETHER
WITH the enumeration order in which `search_versions` lists each version
set: two runs observing pointwise-equal search lists and metadata produce
identical graphs.  (By the counterexample, set-equality of the search
results is not enough.) -/
theorem resolve_function_of_search_order
    (e1 e2 : ResolveEnv) (fuel : Nat) (root : Coordinate) (vs : String)
    (hs : ∀ c, e1.search c = e2.search c)
    (hm : ∀ c v, e1.metadataDeps c v = e2.metadataDeps c v) :
    DependencyResolver.resolve e1 fuel root vs = DependencyResolver.resolve e2 fuel root vs := by
  have he : e1 = e2 := by
    cases e1
    cases e2
    simp only [ResolveEnv.mk.injEq]
    exact ⟨funext hs, funext fun c => funext (hm c)⟩
  rw [he]

/-- Witness for C8: the amended theorem applied to `c8EnvA` and a
field-identical copy of it. -/
theorem resolve_function_of_search_order_witness :
    DependencyResolver.resolve c8EnvA 10 c8Root "1.0.0" =
      DependencyResolver.resolve ⟨c8EnvA.search, c8Meta⟩ 10 c8Root "1.0.0" :=
  resolve_function_of_search_order c8EnvA ⟨c8EnvA.search, c8Meta⟩ 10 c8Root "1.0.0"
    (fun _ => rfl) (fun _ _ => rfl)

/-! ## Claims C1 and C2: removal and the pruner

Shared scenario: a lockfile with three entries `g:a`, `g:b`, `g:c`, where
both `g:a` and `g:b` depend on `g:c`. -/

/-- Lockfile entry for `g:a`, depending on `g:c`. -/
def lockPkgA : PackageInfo := ⟨"1.0.0", "MavenCentral", "sha256:aa", ["g:c"]⟩

/-- Lockfile entry for `g:b`, also depending on `g:c`. -/
def lockPkgB : PackageInfo := ⟨"1.0.0", "MavenCentral", "sha256:bb", ["g:c"]⟩

/-- Lockfile entry for `g:c`, with no dependencies. -/
def lockPkgC : PackageInfo := ⟨"1.0.0", "MavenCentral", "sha256:cc", []⟩

/-- The lockfile `{g:a → [g:c], g:b → [g:c], g:c → []}`. -/
def lfShared : Lockfile := ⟨1, [("g:a", lockPkgA), ("g:b", lockPkgB), ("g:c", lockPkgC)]⟩

/-- Coordinate `g:a`. -/
def coordGA : Coordinate := ⟨"g", "a", none⟩

/-- Coordinate `g:b`. -/
def coordGB : Coordinate := ⟨"g", "b", none⟩

/-- Coordinate `g:c`. -/
def coordGC : Coordinate := ⟨"g", "c", none⟩

/-- C1 (code bug): after `remove(g:a)` on the lockfile `{g:a → [g:c],
g:b → [g:c], g:c → []}`, the surviving entry `g:b` still lists `g:c` among
its dependencies, yet `g:c` is no longer a key of the lockfile — the claim's
remove-safety is violated.  The cause is in src/resolver.rs line 255: the
retained-pass loop computes the other coordinate `c` but calls
`pruner.mark_tree(&coord, ..)` with the coordinate being REMOVED, and the
pruner's `visited` set (already holding that coordinate from the removed
pass) makes every such call return immediately, so the retained set stays
empty and `get_removable` returns the whole removed subtree. -/
theorem remove_deletes_shared_dependency :
    lfShared.get "g:c" = some lockPkgC ∧
    lfShared.get "g:b" = some lockPkgB ∧
    "g:c" ∈ lockPkgB.deps ∧
    (DependencyResolver.remove 10 coordGA lfShared).get "g:b" = some lockPkgB ∧
    (DependencyResolver.remove 10 coordGA lfShared).get "g:c" = none := by
  refine ⟨rfl, rfl, by decide, rfl, rfl⟩

/-- C2 (code bug): the pruner's `visited` set is a field of the struct and
is never reset between `mark_tree` invocations (src/prune.rs lines 9, 23).
After the removed-pass traversal from `g:a` (which visits `g:c`), a
retained-pass traversal from `g:b` reaches `g:c` but does NOT insert it into
`marked_from_remaining`, contrary to the claim that the visited set is
scoped to each traversal.  (This demonstration calls `mark_tree` directly
with the correct argument `g:b`, isolating the non-reset from the separate
argument slip exhibited for C1.) -/
theorem pruner_visited_shared_across_passes :
    (let st1 := DependencyPruner.markTree 10 .new coordGA lfShared true
     let st2 := DependencyPruner.markTree 10 st1 coordGB lfShared false
     coordGC ∈ st2.marked_from_removed ∧
     coordGB ∈ st2.marked_from_remaining ∧
     coordGC ∈ st2.visited ∧
     coordGC ∉ st2.marked_from_remaining) := by
  refine ⟨by decide, by decide, by decide, by decide⟩

/-! ## Claims C3 and C4: on-disk write disciplines

The observable fixed here is the byte content at the destination path (and,
for the lockfile, at its temporary file): `none` means no file, `some bs`
a file holding exactly the bytes `bs`.  `fs::write` is `File::create`
(which truncates any existing file) followed by `write_all`, so its
interruption states are the old content, then the empty file, then every
prefix of the new content.  A rename is a single atomic step.  Paths are
lists of path segments. -/

/-- The filesystem operations a store/write routine issues, in order. -/
inductive FsOp where
  | createDirAll (p : List String)
  | writeFile (p : List String)
  | createTempIn (dir : List String)
  | writeTemp
  | flushTemp
  | renameInto (dest : List String)
deriving DecidableEq, Repr

/-- The operation trace of `Repository::store_artifact` (src/repository.rs
lines 34-49): `create_dir_all` on the parent, then a direct `fs::write` of
the canonical path.  No temporary file, no rename. -/
def storeArtifactOps (path : List String) : List FsOp :=
  [.createDirAll path.dropLast, .writeFile path]

/-- The successive contents of the canonical artifact path during
`Repository::store_artifact`, starting from old content `old` and writing
`content`: `create_dir_all` leaves the file alone; `fs::write` truncates and
then appends, so an interruption can leave any prefix of `content`
(including the empty file). -/
def storeArtifactDestStates (old : Option (List Nat)) (content : List Nat) :
    List (Option (List Nat)) :=
  old :: (List.range (content.length + 1)).map fun k => some (content.take k)

/-- C3 counterexample: with previous content `[1]` and new content `[2, 3]`,
the state right after `fs::write` truncates the file is `some []` — the
canonical path holds neither the previous complete content, nor the new
complete content, nor nothing, refuting the claimed atomicity; and the
operation trace of `store_artifact` contains no temp-file creation and no
rename. -/
theorem store_artifact_not_atomic_counterexample :
    some ([] : List Nat) ∈ storeArtifactDestStates (some [1]) [2, 3] ∧
    some ([] : List Nat) ≠ some [1] ∧
    some ([] : List Nat) ≠ some [2, 3] ∧
    some ([] : List Nat) ≠ (none : Option (List Nat)) ∧
    FsOp.createTempIn ["r"] ∉ storeArtifactOps ["r", "a.jar"] ∧
    FsOp.renameInto ["r", "a.jar"] ∉ storeArtifactOps ["r", "a.jar"] := by
  refine ⟨by decide, by decide, by decide, by decide, by decide, by decide⟩

/-- C3 (amended): `store_artifact` creates the parent directories and then
writes the canonical path IN PLACE with a single `fs::write` — there is no
temporary file and no rename — so the write completes with the new content,
but an interruption mid-write can leave the truncated file or any prefix of
the new bytes at the canonical path. -/
theorem store_artifact_direct_write :
    (∀ (old : Option (List Nat)) (content : List Nat),
      some content ∈ storeArtifactDestStates old content)
    ∧ (∀ (old : Option (List Nat)) (content : List Nat) (st : Option (List Nat)),
        st ∈ storeArtifactDestStates old content →
        st = old ∨ ∃ k ≤ content.length, st = some (content.take k))
    ∧ (∀ path : List String,
        storeArtifactOps path = [.createDirAll path.dropLast, .writeFile path]) := by
  refine ⟨?_, ?_, fun path => rfl⟩
  · intro old content
    simp only [storeArtifactDestStates, List.mem_cons, List.mem_map, List.mem_range]
    exact Or.inr ⟨content.length, by omega, by rw [List.take_length]⟩
  · intro old content st hst
    simp only [storeArtifactDestStates, List.mem_cons, List.mem_map, List.mem_range] at hst
    rcases hst with rfl | ⟨k, hk, rfl⟩
    · exact Or.inl rfl
    · exact Or.inr ⟨k, by omega, rfl⟩

/-- Witness for C3: the amended theorem applied at old content `[7]` and new
content `[8, 9]`, and at the truncated intermediate state. -/
theorem store_artifact_direct_write_witness :
    some ([8, 9] : List Nat) ∈ storeArtifactDestStates (some [7]) [8, 9] ∧
    (some ([] : List Nat) = some [7] ∨
      ∃ k ≤ ([8, 9] : List Nat).length, some ([] : List Nat) = some (([8, 9] : List Nat).take k)) :=
  ⟨store_artifact_direct_write.1 (some [7]) [8, 9],
    store_artifact_direct_write.2.1 (some [7]) [8, 9] (some []) (by decide)⟩

/-- One interruption state of `Lockfile::write`: the content of the
destination path and of the temporary file. -/
structure WriteState where
  dest : Option (List Nat)
  temp : Option (List Nat)
deriving DecidableEq, Repr

/-- The interruption states of `Lockfile::write` (src/lockfile.rs lines
51-64) BEFORE the final rename, starting from destination content `old` and
serialized bytes `content`: `ensure_parent_dir`, `NamedTempFile::new_in`
(creates an empty temp file in the destination's directory), `write_all`
prefix by prefix, `flush`.  The destination is untouched throughout. -/
def lockfileWritePre (old : Option (List Nat)) (content : List Nat) : List WriteState :=
  ⟨old, none⟩ :: ⟨old, some []⟩ ::
    ((List.range (content.length + 1)).map fun k => ⟨old, some (content.take k)⟩) ++
      [⟨old, some content⟩]

/-- The full state trace of `Lockfile::write`: the pre-rename states, then
the single atomic `persist` (rename) installing the new content at the
destination and consuming the temp file. -/
def lockfileWriteStates (old : Option (List Nat)) (content : List Nat) : List WriteState :=
  lockfileWritePre old content ++ [⟨some content, none⟩]

/-- The operation trace of `Lockfile::write`: parent creation, temp file
created in the destination's own directory, write, flush, rename into
place. -/
def lockfileWriteOps (path : List String) : List FsOp :=
  [.createDirAll path.dropLast, .createTempIn path.dropLast, .writeTemp, .flushTemp,
    .renameInto path]

/-- C4 (confirmed): `Lockfile::write` serializes into a temporary file
created in the destination's own directory and renames it into place; at
every interruption point before the final atomic rename the destination
still holds exactly the previous content (intact and readable), and the
trace ends with the rename installing the new content. -/
theorem lockfile_write_atomic :
    (∀ (old : Option (List Nat)) (content : List Nat) (st : WriteState),
      st ∈ lockfileWritePre old content → st.dest = old)
    ∧ (∀ (old : Option (List Nat)) (content : List Nat),
        lockfileWriteStates old content =
          lockfileWritePre old content ++ [⟨some content, none⟩])
    ∧ (∀ path : List String,
        lockfileWriteOps path =
          [.createDirAll path.dropLast, .createTempIn path.dropLast, .writeTemp,
            .flushTemp, .renameInto path]) := by
  refine ⟨?_, fun old content => rfl, fun path => rfl⟩
  intro old content st hst
  rcases List.mem_cons.mp hst with rfl | hst2
  · rfl
  rcases List.mem_cons.mp hst2 with rfl | hst3
  · rfl
  rcases List.mem_append.mp hst3 with hmap | hsing
  · rcases List.mem_map.mp hmap with ⟨k, -, rfl⟩
    rfl
  · rw [List.mem_singleton.mp hsing]

/-- Witness for C4: the theorem applied at old content `[1]`, new content
`[2, 3]`, and the mid-write state where the temp file holds one byte. -/
theorem lockfile_write_atomic_witness :
    (WriteState.mk (some [1]) (some [2])).dest = some [1] ∧
    lockfileWriteStates (some [1]) [2, 3] =
      lockfileWritePre (some [1]) [2, 3] ++ [⟨some [2, 3], none⟩] :=
  ⟨lockfile_write_atomic.1 (some [1]) [2, 3] ⟨some [1], some [2]⟩ (by decide),
    lockfile_write_atomic.2.1 (some [1]) [2, 3]⟩

/-! ## Claim C9: `Repository::remove_artifacts` and directory cleanup

The store-relevant filesystem is a set of directory paths and file paths
(lists of path segments).  `Path::starts_with` is component-wise prefix
(true on equal paths), `Path::parent` drops the last segment. -/

/-- Directories and files currently on disk, as segment-list paths. -/
structure Fs where
  dirs : List (List String)
  files : List (List String)
deriving DecidableEq, Repr

/-- A path strictly below `p`. -/
def strictUnder (p q : List String) : Bool :=
  p.isPrefixOf q && decide (q ≠ p)

/-- `Repository::is_dir_empty`: `read_dir` yields nothing, i.e. no dir or
file lies strictly below `p`. -/
def Fs.isDirEmpty (fs : Fs) (p : List String) : Bool :=
  (fs.dirs ++ fs.files).all fun q => !(strictUnder p q)

/-- `fs::remove_dir_all(p)`: delete `p` and everything below it. -/
def Fs.removeDirAll (fs : Fs) (p : List String) : Fs :=
  ⟨fs.dirs.filter fun q => !(p.isPrefixOf q), fs.files.filter fun q => !(p.isPrefixOf q)⟩

/-- `fs::remove_dir(p)` on an empty directory: delete the single entry. -/
def Fs.removeDir (fs : Fs) (p : List String) : Fs :=
  { fs with dirs := fs.dirs.filter fun q => decide (q ≠ p) }

/-- `Repository::cleanup_empty_dirs` (src/repository.rs lines 71-89): from
`current` walk upward while `current.starts_with(root)` — note this is TRUE
when `current` equals the root — removing each empty directory and moving to
the parent; stop at the first non-empty directory or when the walk leaves
the root.  The source's `while` terminates because `parent` shortens the
path; it is invoked with fuel `current.length + 1`, which bounds the
number of `parent` steps, so the fuel branch is never taken. -/
def cleanupEmptyDirs (root : List String) : Nat → Fs → List String → Fs
  | 0, fs, _ => fs
  | fuel + 1, fs, current =>
    if root.isPrefixOf current then
      if fs.isDirEmpty current then
        cleanupEmptyDirs root fuel (fs.removeDir current) current.dropLast
      else fs
    else fs

/-- `Repository::remove_artifacts` (src/repository.rs lines 91-105): remove
the version directory recursively, then clean up newly empty ancestors
starting at the coordinate directory. -/
def Repository.removeArtifacts (root : List String) (coord : Coordinate)
    (version : String) (fs : Fs) : Fs :=
  let versionDir := root ++ coord.pathSegs ++ [version]
  if versionDir ∈ fs.dirs then
    let fs2 := fs.removeDirAll versionDir
    cleanupEmptyDirs root (versionDir.dropLast.length + 1) fs2 versionDir.dropLast
  else fs

/-- The C9 scenario coordinate `org.test:test-lib`. -/
def c9Coord : Coordinate := ⟨"org.test", "test-lib", none⟩

/-- A store rooted at `repo` holding exactly the artifacts of
`org.test:test-lib` version `1.0.0`. -/
def c9Fs : Fs :=
  ⟨[["repo"], ["repo", "org"], ["repo", "org", "test"],
      ["repo", "org", "test", "test-lib"],
      ["repo", "org", "test", "test-lib", "1.0.0"]],
    [["repo", "org", "test", "test-lib", "1.0.0", "test-lib-1.0.0.jar"]]⟩

/-- C9 (code bug): on a store whose root `repo` exclusively holds
`org.test:test-lib 1.0.0`, `remove_artifacts` deletes the version directory
and all newly empty ancestors — and then, because the upward walk's
condition `current.starts_with(&self.root)` is also true of the root itself,
deletes the now-empty STORE ROOT too, leaving no directories at all.  The
claim (and the source's own comment, "until we hit the root") says the walk
stops at the store root, which remains.  A second store sharing `repo/org`
with another coordinate keeps the shared ancestor, confirming that the walk
does stop at the first non-empty directory. -/
theorem remove_artifacts_deletes_store_root :
    ["repo"] ∈ c9Fs.dirs ∧
    (Repository.removeArtifacts ["repo"] c9Coord "1.0.0" c9Fs).dirs = [] ∧
    (Repository.removeArtifacts ["repo"] c9Coord "1.0.0"
        ⟨c9Fs.dirs ++ [["repo", "org", "other"]], c9Fs.files⟩).dirs =
      [["repo"], ["repo", "org"], ["repo", "org", "other"]] := by
  refine ⟨by decide, by decide, by decide⟩

/-! ## Claim C10: `PomParser::parse_dependencies`

The XML input is modelled as an already-parsed element tree (a tree is
exactly a well-formed document).  The deserializer mirrors the serde derives
of src/resolver.rs lines 116-137: `Project` has a single `dependencies`
field with `#[serde(default)]` (absent element → empty), `Dependencies` a
defaulted `dependency` list, `Dependency` requires `groupId` and
`artifactId` text, with optional `version` and `scope`; unknown elements are
ignored. -/

/-- A well-formed XML tree. -/
inductive Xml where
  | elem (tag : String) (children : List Xml)
  | text (s : String)

/-- The children of an element, `none` on a text node. -/
def Xml.childList : Xml → Option (List Xml)
  | .elem _ cs => some cs
  | .text _ => none

/-- The first child element with the given tag. -/
def findChild (tag : String) (cs : List Xml) : Option Xml :=
  cs.find? fun x =>
    match x with
    | .elem t _ => decide (t = tag)
    | .text _ => false

/-- The text content of an element: its single text child, or the empty
string for an empty element; `none` (a deserialization failure for a string
field) when the element holds child elements. -/
def textContent : Xml → Option String
  | .elem _ [] => some ""
  | .elem _ [.text s] => some s
  | _ => none

/-- The deserialized form of one `<dependency>` element (the `Dependency`
serde struct). -/
structure PomDependency where
  group_id : String
  artifact_id : String
  version : Option String
  scope : Option String
deriving DecidableEq, Repr

/-- Deserialize one `<dependency>`: `groupId` and `artifactId` are required
string fields, `version` and `scope` optional. -/
def deDependency (x : Xml) : Option PomDependency :=
  match x.childList with
  | none => none
  | some cs =>
    match findChild "groupId" cs, findChild "artifactId" cs with
    | some g, some a =>
      match textContent g, textContent a with
      | some gs, some ans =>
        some ⟨gs, ans, (findChild "version" cs).bind textContent,
          (findChild "scope" cs).bind textContent⟩
      | _, _ => none
    | _, _ => none

/-- Whether a node is a `<dependency>` element. -/
def isDependencyElem : Xml → Bool
  | .elem "dependency" _ => true
  | _ => false

/-- Deserialize a `<dependencies>` element: every `<dependency>` child must
deserialize; other children are ignored. -/
def deDependencies (x : Xml) : Option (List PomDependency) :=
  match x.childList with
  | none => none
  | some cs => (cs.filter isDependencyElem).mapM deDependency

/-- Deserialize the document root into the `Project` struct: the
`dependencies` field is `#[serde(default)]`, so a root with no
`<dependencies>` child yields the empty dependency list. -/
def deProject (x : Xml) : Option (List PomDependency) :=
  match x with
  | .text _ => none
  | .elem _ cs =>
    match findChild "dependencies" cs with
    | none => some []
    | some d => deDependencies d

/-- The request-building loop of `parse_dependencies` (src/resolver.rs lines
142-164): skip `scope == "test"`, parse the version requirement
(`VersionReq::parse(&v)?` — a parse failure aborts the whole call), default
to `Latest` when `<version>` is absent, depth 0. -/
def buildRequests : List PomDependency → Except String (List DependencyRequest)
  | [] => .ok []
  | d :: rest =>
    if d.scope = some "test" then buildRequests rest
    else
      match
        (match d.version with
         | some v => VersionReq.parseChars v.data
         | none => .ok .Latest) with
      | .error e => .error e
      | .ok vr =>
        match buildRequests rest with
        | .error e => .error e
        | .ok rs => .ok (⟨⟨d.group_id, d.artifact_id, none⟩, vr, d.scope, 0⟩ :: rs)

/-- `PomParser::parse_dependencies` (src/resolver.rs lines 115-167):
deserialize, then build the requests. -/
def PomParser.parseDependencies (doc : Xml) : Except String (List DependencyRequest) :=
  match deProject doc with
  | none => .error "deserialize"
  | some deps => buildRequests deps

/-- A document that deserializes fine but whose dependency pins the
malformed range `"[1.0"`. -/
def badVersionDoc : Xml :=
  .elem "project"
    [.elem "dependencies"
      [.elem "dependency"
        [.elem "groupId" [.text "g"],
          .elem "artifactId" [.text "a"],
          .elem "version" [.text "[1.0"]]]]

/-- C10 counterexample: the claim says only XML that fails to deserialize
makes the call fail, but `badVersionDoc` deserializes successfully (the
serde phase accepts it) and `parse_dependencies` still fails, because the
non-test dependency's version string `"[1.0"` is rejected by
`VersionReq::parse`. -/
theorem pom_parse_version_error_counterexample :
    (deProject badVersionDoc).isSome = true ∧
    PomParser.parseDependencies badVersionDoc =
      .error "invalid range format: missing closing bracket" := by
  refine ⟨rfl, rfl⟩

theorem buildRequests_ok :
    ∀ deps : List PomDependency,
      (∀ d ∈ deps, d.scope ≠ some "test" → ∀ v, d.version = some v →
        ∃ vr, VersionReq.parseChars v.data = .ok vr) →
      ∃ rs, buildRequests deps = .ok rs
  | [], _ => ⟨[], rfl⟩
  | d :: rest, h => by
    obtain ⟨rs, hrs⟩ :=
      buildRequests_ok rest (fun x hx => h x (List.mem_cons_of_mem d hx))
    by_cases hscope : d.scope = some "test"
    · exact ⟨rs, by simp [buildRequests, hscope, hrs]⟩
    · rcases hv : d.version with - | v
      · refine ⟨⟨⟨d.group_id, d.artifact_id, none⟩, .Latest, d.scope, 0⟩ :: rs, ?_⟩
        simp [buildRequests, hscope, hv, hrs]
      · obtain ⟨vr, hvr⟩ := h d (List.mem_cons_self d rest) hscope v hv
        refine ⟨⟨⟨d.group_id, d.artifact_id, none⟩, vr, d.scope, 0⟩ :: rs, ?_⟩
        simp [buildRequests, hscope, hv, hvr, hrs]

/-- C10 (amended): a well-formed document with no `<dependencies>` element,
or with an empty `<dependencies>` element, yields `Ok` with the empty
request list; and the call succeeds whenever deserialization succeeds AND
every non-test dependency's `<version>` string (when present) passes
`VersionReq::parse` — a version-string parse failure also fails the call,
not only a deserialization failure as the claim stated. -/
theorem pom_parse_dependencies_empty_ok :
    (∀ (tag : String) (cs : List Xml), findChild "dependencies" cs = none →
      PomParser.parseDependencies (.elem tag cs) = .ok [])
    ∧ (∀ (tag dtag : String) (cs : List Xml),
        findChild "dependencies" cs = some (.elem dtag []) →
        PomParser.parseDependencies (.elem tag cs) = .ok [])
    ∧ (∀ (doc : Xml) (deps : List PomDependency), deProject doc = some deps →
        (∀ d ∈ deps, d.scope ≠ some "test" → ∀ v, d.version = some v →
          ∃ vr, VersionReq.parseChars v.data = .ok vr) →
        ∃ rs, PomParser.parseDependencies doc = .ok rs) := by
  refine ⟨?_, ?_, ?_⟩
  · intro tag cs h
    simp [PomParser.parseDependencies, deProject, h, buildRequests]
  · intro tag dtag cs h
    simp only [PomParser.parseDependencies, deProject, h]
    rfl
  · intro doc deps hde hall
    obtain ⟨rs, hrs⟩ := buildRequests_ok deps hall
    exact ⟨rs, by simp [PomParser.parseDependencies, hde, hrs]⟩

/-- Witness for C10: the amended theorem applied at a document with no
`<dependencies>` element and at one with an empty `<dependencies>`
element. -/
theorem pom_parse_dependencies_empty_ok_witness :
    PomParser.parseDependencies (.elem "project" [.elem "build" []]) = .ok [] ∧
    PomParser.parseDependencies (.elem "project" [.elem "dependencies" []]) = .ok [] :=
  ⟨pom_parse_dependencies_empty_ok.1 "project" [.elem "build" []] rfl,
    pom_parse_dependencies_empty_ok.2.1 "project" "dependencies"
      [.elem "dependencies" []] rfl⟩
